import Mathlib

/-!
Verification of the AIS player's timed replay engine (`src/index.js`).

The repository contains two revisions of the player, concatenated in
`src/index.js`:
* revision 1 (lines 1-324): one-wait-per-packet scheduler, duplicate
  suppression inside the `onSend` dispatch closure;
* revision 2 (lines 325-633): poll-driven scheduler with a playback-rate
  multiplier and simulated-time heartbeats.

Modelling conventions for the shallow embedding:
* JavaScript strings are sequences of Unicode code points, modelled as
  `List Nat` (every string in play comes from Node's UTF-8 decoding, which
  never produces lone surrogates, so the code-point view is faithful);
* byte buffers (Node `Buffer`) are `List Nat` of byte values;
* wall-clock and simulated times are `ℚ` (the source uses IEEE doubles
  only for scheduling arithmetic, "never for exact comparisons" per its
  own documentation, so exact rationals are the intended idealisation);
* the wall clock is an explicit parameter: `playbackStart` is the reading
  taken at scheduler entry and `nows` the successive `Date.now()/1000`
  readings observed at the top of each poll iteration;
* console output relevant to the specified behaviour is reified into the
  returned state (heartbeat records, the incomplete-packet warning flag,
  the no-packets log flag); purely presentational formatting is not.
-/

namespace AisPlayer

/-! ## Code points, JS whitespace and `trim`, `startsWith('!')` -/

/-- The set of code points removed by JavaScript `String.prototype.trim`:
ECMAScript WhiteSpace (TAB, VT, FF, SP, NBSP, ZWNBSP and the Zs category)
together with LineTerminator (LF, CR, LS, PS). -/
def isJsWhitespace (c : Nat) : Bool :=
  c = 0x9 || c = 0xA || c = 0xB || c = 0xC || c = 0xD || c = 0x20 ||
  c = 0xA0 || c = 0x1680 || (0x2000 ≤ c && c ≤ 0x200A) ||
  c = 0x2028 || c = 0x2029 || c = 0x202F || c = 0x205F || c = 0x3000 ||
  c = 0xFEFF

/-- JavaScript `s.trim()`: drop whitespace from both ends. -/
def jsTrim (s : List Nat) : List Nat :=
  ((s.dropWhile isJsWhitespace).reverse.dropWhile isJsWhitespace).reverse

/-- JavaScript `s.startsWith('!')` ('!' is code point 0x21). -/
def startsWithBang : List Nat → Bool
  | 0x21 :: _ => true
  | _ => false

/-! ## UTF-8

`Buffer.from(string, 'utf-8')` encodes scalar values; `buffer.toString('utf-8')`
decodes with U+FFFD replacement for invalid sequences (WHATWG semantics,
maximal-subpart resumption), as implemented by V8/Node. -/

/-- A Unicode scalar value (what a JS string obtained by UTF-8 decoding
contains: no lone surrogates). -/
def validScalar (c : Nat) : Prop :=
  c < 0xD800 ∨ (0xE000 ≤ c ∧ c < 0x110000)

/-- UTF-8 encoding of one scalar value. -/
def encodeChar (c : Nat) : List Nat :=
  if c < 0x80 then [c]
  else if c < 0x800 then [0xC0 + c / 64, 0x80 + c % 64]
  else if c < 0x10000 then
    [0xE0 + c / 4096, 0x80 + c / 64 % 64, 0x80 + c % 64]
  else
    [0xF0 + c / 0x40000, 0x80 + c / 4096 % 64, 0x80 + c / 64 % 64,
     0x80 + c % 64]

/-- UTF-8 encoding of a string (`Buffer.from(s, 'utf-8')`). -/
def encodeUtf8 : List Nat → List Nat
  | [] => []
  | c :: rest => encodeChar c ++ encodeUtf8 rest

/-- Decode one scalar value from a lead byte `b1` and the following bytes
`r`: the decoded value (U+FFFD on error) and the bytes not yet consumed.
On an invalid continuation byte decoding resumes at that byte
(maximal-subpart policy); a sequence truncated by the end of input yields
one replacement character. -/
def decodeOne (b1 : Nat) (r : List Nat) : Nat × List Nat :=
  if b1 ≤ 0x7F then (b1, r)
  else if 0xC2 ≤ b1 ∧ b1 ≤ 0xDF then
    match r with
    | [] => (0xFFFD, [])
    | b2 :: r2 =>
      if 0x80 ≤ b2 ∧ b2 ≤ 0xBF then ((b1 - 0xC0) * 64 + (b2 - 0x80), r2)
      else (0xFFFD, b2 :: r2)
  else if 0xE0 ≤ b1 ∧ b1 ≤ 0xEF then
    match r with
    | [] => (0xFFFD, [])
    | b2 :: r2 =>
      if (if b1 = 0xE0 then 0xA0 else 0x80) ≤ b2 ∧
         b2 ≤ (if b1 = 0xED then 0x9F else 0xBF) then
        match r2 with
        | [] => (0xFFFD, [])
        | b3 :: r3 =>
          if 0x80 ≤ b3 ∧ b3 ≤ 0xBF then
            ((b1 - 0xE0) * 4096 + (b2 - 0x80) * 64 + (b3 - 0x80), r3)
          else (0xFFFD, b3 :: r3)
      else (0xFFFD, b2 :: r2)
  else if 0xF0 ≤ b1 ∧ b1 ≤ 0xF4 then
    match r with
    | [] => (0xFFFD, [])
    | b2 :: r2 =>
      if (if b1 = 0xF0 then 0x90 else 0x80) ≤ b2 ∧
         b2 ≤ (if b1 = 0xF4 then 0x8F else 0xBF) then
        match r2 with
        | [] => (0xFFFD, [])
        | b3 :: r3 =>
          if 0x80 ≤ b3 ∧ b3 ≤ 0xBF then
            match r3 with
            | [] => (0xFFFD, [])
            | b4 :: r4 =>
              if 0x80 ≤ b4 ∧ b4 ≤ 0xBF then
                ((b1 - 0xF0) * 0x40000 + (b2 - 0x80) * 4096 +
                  (b3 - 0x80) * 64 + (b4 - 0x80), r4)
              else (0xFFFD, b4 :: r4)
          else (0xFFFD, b3 :: r3)
      else (0xFFFD, b2 :: r2)
  else (0xFFFD, r)

/-- UTF-8 decoding with U+FFFD replacement (`buffer.toString('utf-8')`). -/
def decodeUtf8 : List Nat → List Nat
  | [] => []
  | b1 :: r =>
    (decodeOne b1 r).1 :: decodeUtf8 (decodeOne b1 r).2
termination_by l => l.length
decreasing_by
  simp only [List.length_cons]
  have h : ∀ (b : Nat) (l : List Nat), (decodeOne b l).2.length ≤ l.length := by
    intro b l
    unfold decodeOne
    repeat' split
    all_goals simp_all
    all_goals omega
  exact Nat.lt_succ_of_le (h _ _)

/-! ## The Packet record -/

/-- Normalized record produced by both format readers:
`{ timestampSec, timestampUsec, data }` where `data` are raw payload bytes. -/
structure Packet where
  timestampSec : Nat
  timestampUsec : Nat
  data : List Nat
  deriving Repr, DecidableEq

/-- `packet.timestampSec + packet.timestampUsec / 1e6`, the instant used by
the schedulers. -/
def instantOf (p : Packet) : ℚ :=
  (p.timestampSec : ℚ) + (p.timestampUsec : ℚ) / 1000000

/-! ## Binary format reader (`parseBinFile`, lines 434-457)

The file contents are a byte list; `fs.readFileSync` is abstracted to the
caller supplying the bytes.  The returned `Bool` records whether the
`'Incomplete packet at end of file'` warning was printed. -/

/-- `buffer.readUInt32LE(offset)`. -/
def readUInt32LE (buf : List Nat) (off : Nat) : Nat :=
  buf.getD off 0 + 256 * buf.getD (off + 1) 0 +
    65536 * buf.getD (off + 2) 0 + 16777216 * buf.getD (off + 3) 0

/-- The scan loop of `parseBinFile`: while at least 12 bytes remain, read the
three little-endian header fields, stop with a warning if the declared
payload overruns the buffer, otherwise slice the payload and continue. -/
def parseBinGo (buf : List Nat) : List Packet × Bool :=
  if _h : buf.length < 12 then ([], false)
  else
    let timestampSec := readUInt32LE buf 0
    let timestampUsec := readUInt32LE buf 4
    let packetSize := readUInt32LE buf 8
    let rest := buf.drop 12
    if packetSize > rest.length then ([], true)
    else
      let out := parseBinGo (rest.drop packetSize)
      (⟨timestampSec, timestampUsec, rest.take packetSize⟩ :: out.1, out.2)
termination_by buf.length
decreasing_by simp only [List.length_drop]; omega

/-- `parseBinFile` on the file's bytes.  First component: the packet list;
second component: whether the incomplete-packet warning fired. -/
def parseBinFile (fileBuffer : List Nat) : List Packet × Bool :=
  parseBinGo fileBuffer


/-! ### Declarative frame layout (for stating the binary reader's contract)

`spec.md` defines a frame as a fixed 12-byte header of three little-endian
unsigned 32-bit fields (seconds, microseconds, payload-length) immediately
followed by that many payload bytes. -/

/-- The four little-endian bytes of an unsigned 32-bit value. -/
def encodeLE32 (k : Nat) : List Nat :=
  [k % 256, k / 256 % 256, k / 65536 % 256, k / 16777216 % 256]

/-- The on-disk frame that denotes a given packet. -/
def encodeFrame (p : Packet) : List Nat :=
  encodeLE32 p.timestampSec ++ encodeLE32 p.timestampUsec ++
    encodeLE32 p.data.length ++ p.data

/-- A sequence of frames, concatenated. -/
def encodeFrames : List Packet → List Nat
  | [] => []
  | p :: rest => encodeFrame p ++ encodeFrames rest

/-- The packet's fields fit the 32-bit header fields. -/
def frameWF (p : Packet) : Prop :=
  p.timestampSec < 2 ^ 32 ∧ p.timestampUsec < 2 ^ 32 ∧ p.data.length < 2 ^ 32

/-- A trailing fragment on which the scan stops: shorter than a full
header, or a full header whose declared payload length exceeds the
remaining bytes. -/
def scanStopper (tail : List Nat) : Prop :=
  tail.length < 12 ∨ readUInt32LE tail 8 + 12 > tail.length

/-! ## Text format reader (`parseNm4File`, lines 459-481)

The file contents are the decoded code points; `fs.readFileSync(path,'utf-8')`
is abstracted to the caller supplying them. -/

/-- `s.split(/\r?\n/)`: a separator is either `"\r\n"` or `"\n"`; a lone
`'\r'` is ordinary line content. -/
def splitLines : List Nat → List (List Nat)
  | [] => [[]]
  | 0xD :: 0xA :: rest => [] :: splitLines rest
  | 0xA :: rest => [] :: splitLines rest
  | c :: rest =>
    match splitLines rest with
    | [] => [[c]]
    | l :: ls => (c :: l) :: ls

/-- Regex `\d`. -/
def isDigit (c : Nat) : Bool := 0x30 ≤ c && c ≤ 0x39

/-- Regex `\w` (`[A-Za-z0-9_]`). -/
def isWordChar (c : Nat) : Bool :=
  isDigit c || (0x41 ≤ c && c ≤ 0x5A) || (0x61 ≤ c && c ≤ 0x7A) || c = 0x5F

/-- ECMAScript line terminators, the characters `.` does not match. -/
def isLineTerm (c : Nat) : Bool :=
  c = 0xA || c = 0xD || c = 0x2028 || c = 0x2029

/-- Attempt of the regex `/c:(\d+)\*\w+\\(.*)/` anchored at the head of `l`,
returning the two capture groups.  Both `\d+` and `\w+` are greedy and,
because neither `'*'` nor `'\\'` belongs to the class being repeated,
backtracking can never produce a different match: each repetition must be
the maximal run, followed by the required literal.  `(.*)` greedily takes
everything up to the first line terminator (or the end). -/
def matchAt : List Nat → Option (List Nat × List Nat)
  | 0x63 :: 0x3A :: rest =>
    let ds := rest.takeWhile isDigit
    if ds.isEmpty then none
    else
      match rest.drop ds.length with
      | 0x2A :: rest2 =>
        let ws := rest2.takeWhile isWordChar
        if ws.isEmpty then none
        else
          match rest2.drop ws.length with
          | 0x5C :: rest3 => some (ds, rest3.takeWhile (fun c => !isLineTerm c))
          | _ => none
      | _ => none
  | _ => none

/-- `line.match(/c:(\d+)\*\w+\\(.*)/)`: scan start positions left to right
and take the first successful match (JS leftmost-match semantics). -/
def findCMatch : List Nat → Option (List Nat × List Nat)
  | [] => none
  | c :: rest =>
    match matchAt (c :: rest) with
    | some r => some r
    | none => findCMatch rest

/-- `parseInt(digits, 10)` on a nonempty digit run.  (Exact; JS would lose
precision only beyond 2^53, far above any epoch timestamp.) -/
def natOfDigits (ds : List Nat) : Nat :=
  ds.foldl (fun a d => a * 10 + (d - 0x30)) 0

/-- `line.startsWith('\\s:')` — backslash, `'s'`, `':'`. -/
def startsWithSentinel : List Nat → Bool
  | 0x5C :: 0x73 :: 0x3A :: _ => true
  | _ => false

/-- The body of the `for` loop of `parseNm4File`: `none` means the loop
`continue`d without pushing a packet. -/
def parseNm4Line (line : List Nat) : Option Packet :=
  if !startsWithSentinel line then none
  else
    match findCMatch line with
    | none => none
    | some (ds, body) =>
      let timestampSec := natOfDigits ds
      let sentence := jsTrim body
      if startsWithBang sentence then
        some ⟨timestampSec, 0, encodeUtf8 sentence⟩
      else none

/-- `parseNm4File` on the file's decoded text. -/
def parseNm4File (contents : List Nat) : List Packet :=
  (splitLines contents).filterMap parseNm4Line

/-! ## Revision 2: the poll-driven scheduler (`playPackets`, lines 526-568) -/

/-- Aggregates shared by both readers and the scheduler. -/
def startInstant (packets : List Packet) : ℚ :=
  match packets with
  | [] => 0
  | p :: _ => instantOf p

/-- `packets[packets.length - 1]`'s instant. -/
def endInstant (packets : List Packet) : ℚ :=
  match packets.getLast? with
  | none => 0
  | some p => instantOf p

/-- `totalDuration = endTime - startTime` (line 534). -/
def totalDuration (packets : List Packet) : ℚ :=
  endInstant packets - startInstant packets

/-- `(simulatedTime - startTime) / totalDuration * 100` (line 550).  Over ℚ
a zero `totalDuration` makes the quotient 0, whereas IEEE arithmetic gives
Infinity or NaN; no theorem below relies on the value in that case. -/
def percentPlayed (startTime totalDur simT : ℚ) : ℚ :=
  (simT - startTime) / totalDur * 100

/-- Scheduler state observable across poll iterations.  `heartbeats`
reifies the progress log lines as `(simulatedTime, percentPlayed)` pairs;
`loggedNoPackets` reifies the `'No packets to play'` log. -/
structure SchedState where
  packetIndex : Nat
  lastHeartbeatSimTime : ℚ
  heartbeats : List (ℚ × ℚ)
  sends : List (ℚ × List Nat)
  loggedNoPackets : Bool
  deriving Repr, DecidableEq

/-- The inner drain loop (lines 555-564): while the cursor is in range and
the packet's instant is `≤ simulatedTime`, advance the cursor, and invoke
`onSend(instant, sentence)` when the trimmed decoded payload starts with
`'!'`.  Returns the `onSend` invocations and the number of packets drained,
given the packets from the cursor onward. -/
def drainPackets (simT : ℚ) : List Packet → List (ℚ × List Nat) × Nat
  | [] => ([], 0)
  | p :: rest =>
    if instantOf p ≤ simT then
      let sentence := jsTrim (decodeUtf8 p.data)
      let out := drainPackets simT rest
      ((if startsWithBang sentence then [(instantOf p, sentence)] else []) ++
        out.1, out.2 + 1)
    else ([], 0)

/-- One iteration of the poll loop (lines 541-566): read the clock, compute
simulated time, emit a heartbeat if 5 simulated seconds have passed since
the last one, then drain all due packets.  The trailing 50 ms sleep carries
no state; it shows up only in which `now` readings the run observes. -/
def pollStep (packets : List Packet) (startTime totalDur rate pStart : ℚ)
    (st : SchedState) (now : ℚ) : SchedState :=
  let elapsedReal := now - pStart
  let simulatedTime := startTime + elapsedReal * rate
  let st1 :=
    if simulatedTime - st.lastHeartbeatSimTime ≥ 5 then
      { st with
        lastHeartbeatSimTime := simulatedTime
        heartbeats := st.heartbeats ++
          [(simulatedTime, percentPlayed startTime totalDur simulatedTime)] }
    else st
  let out := drainPackets simulatedTime (packets.drop st1.packetIndex)
  { st1 with
    packetIndex := st1.packetIndex + out.2
    sends := st1.sends ++ out.1 }

/-- The `while (packetIndex < packets.length)` loop, driven by the list of
successive clock readings; a run whose readings are exhausted before the
cursor reaches the end is a partial run (the real loop would keep polling). -/
def playLoop (packets : List Packet) (startTime totalDur rate pStart : ℚ) :
    SchedState → List ℚ → SchedState
  | st, [] => st
  | st, now :: rest =>
    if st.packetIndex < packets.length then
      playLoop packets startTime totalDur rate pStart
        (pollStep packets startTime totalDur rate pStart st now) rest
    else st

/-- Revision 2 `playPackets` (lines 526-568), with the wall clock made
explicit: `playbackStart` is the reading captured at entry (line 536) and
`nows` the readings at the top of each iteration (line 542). -/
def playPacketsV2 (packets : List Packet) (playbackRate playbackStart : ℚ)
    (nows : List ℚ) : SchedState :=
  if packets.length = 0 then
    { packetIndex := 0, lastHeartbeatSimTime := 0, heartbeats := [],
      sends := [], loggedNoPackets := true }
  else
    playLoop packets (startInstant packets) (totalDuration packets)
      playbackRate playbackStart
      { packetIndex := 0, lastHeartbeatSimTime := startInstant packets,
        heartbeats := [], sends := [], loggedNoPackets := false } nows

/-- A run that has delivered every packet (`packetIndex == packets.length`,
the loop's exit condition). -/
def completes (packets : List Packet) (playbackRate playbackStart : ℚ)
    (nows : List ℚ) : Prop :=
  (playPacketsV2 packets playbackRate playbackStart nows).packetIndex =
    packets.length

/-- The `onSend` invocation produced by one packet that passes the marker
filter, and `none` for a packet that is skipped. -/
def sendOf (p : Packet) : Option (ℚ × List Nat) :=
  let sentence := jsTrim (decodeUtf8 p.data)
  if startsWithBang sentence then some (instantOf p, sentence) else none

/-- The full `onSend` sequence a complete replay produces: the
marker-passing packets, in file order. -/
def deliveriesOf (packets : List Packet) : List (ℚ × List Nat) :=
  packets.filterMap sendOf

/-! ## Revision 1: the one-wait-per-packet scheduler (`playPackets`,
lines 195-243)

Its waiting loop (lines 219-237) only sleeps and prints heartbeat lines: it
never invokes `onSend` and never touches the packet cursor, so the
`onSend` sequence is independent of the clock; under an ideal monotonic
clock every wait terminates (the sleep is `min(waitTime, 5)` seconds and
`waitTime` strictly decreases to 0).  We model per-packet waiting by
advancing the current wall time to the scheduled time. -/

/-- The `for (const packet of packets)` loop of revision 1, threading the
ideal wall clock: after waiting, `now = max(now, scheduledTime)`; then the
marker filter and `onSend(packetTime, sentence)` (lines 239-241). -/
def playPacketsV1Go (startTime pStart : ℚ) :
    ℚ → List Packet → List (ℚ × List Nat)
  | _, [] => []
  | now, packet :: rest =>
    let packetTime := instantOf packet
    let offset := packetTime - startTime
    let scheduledTime := pStart + offset
    let now2 := max now scheduledTime
    let sentence := jsTrim (decodeUtf8 packet.data)
    if startsWithBang sentence then
      (packetTime, sentence) :: playPacketsV1Go startTime pStart now2 rest
    else playPacketsV1Go startTime pStart now2 rest

/-- Revision 1 `playPackets`: the sequence of `onSend` invocations of a
full run under an ideal clock (empty input returns immediately, line 196). -/
def playPacketsV1 (packets : List Packet) (playbackStart : ℚ) :
    List (ℚ × List Nat) :=
  match packets with
  | [] => []
  | _ => playPacketsV1Go (startInstant packets) playbackStart playbackStart
      packets

/-! ## Revision 1 dispatch closure (`onSend`, lines 292-314)

The duplicate-suppression key is `` `${packetTime}|${sentence}` ``; the
number's decimal image never contains `'|'`, so the string key is injective
on `(packetTime, sentence)` pairs and is modelled as the pair itself.  The
identifier-extraction collaborator (`aisReceiver.extractSentenceRawFields`,
external package `ais-web`) is a parameter `extract`; a `none` result
models a sentence without an MMSI. -/

/-- State of the dispatch closure: the last key seen and the messages
actually handed to the sink (`producer.sendMessage`), as
`(mmsi, sentence)` pairs. -/
structure DispatchState where
  lastPacketKey : Option (ℚ × List Nat)
  sinkSends : List (Nat × List Nat)
  deriving Repr, DecidableEq

/-- One invocation of revision 1's `onSend(packetTime, sentence)`. -/
def onSendV1 (extract : List Nat → Option Nat) (st : DispatchState)
    (packetTime : ℚ) (sentence : List Nat) : DispatchState :=
  let key := (packetTime, sentence)
  if st.lastPacketKey = some key then st
  else
    let st1 : DispatchState := { st with lastPacketKey := some key }
    match extract sentence with
    | none => st1
    | some mmsi => { st1 with sinkSends := st1.sinkSends ++ [(mmsi, sentence)] }


/-- A sample line of the text format (code points of
`\s:r1,c:1700000000*7F\!AIVDM`), used to instantiate theorems. -/
def nm4Sample : List Nat := [92, 115, 58, 114, 49, 44, 99, 58, 49, 55, 48, 48, 48, 48, 48, 48, 48, 48, 42, 55, 70, 92, 33, 65, 73, 86, 68, 77]

/-! ## Helper lemmas: UTF-8 round trip -/

/-- Decoding one encoded scalar value recovers it and consumes exactly its
bytes. -/
lemma decodeOne_encodeChar (c : Nat) (hv : validScalar c) (rest : List Nat) :
    ∃ b1 tail, encodeChar c ++ rest = b1 :: tail ∧
      decodeOne b1 tail = (c, rest) := by
  unfold validScalar at hv
  rcases Nat.lt_or_ge c 0x80 with h1 | h1
  · refine ⟨c, rest, ?_, ?_⟩
    · unfold encodeChar
      rw [if_pos h1]
      rfl
    · unfold decodeOne
      rw [if_pos (by omega)]
  · rcases Nat.lt_or_ge c 0x800 with h2 | h2
    · refine ⟨0xC0 + c / 64, (0x80 + c % 64) :: rest, ?_, ?_⟩
      · unfold encodeChar
        rw [if_neg (by omega), if_pos h2]
        rfl
      · unfold decodeOne
        rw [if_neg (by omega), if_pos (by constructor <;> omega)]
        try simp only
        rw [if_pos (by constructor <;> omega)]
        simp only [Prod.mk.injEq]
        refine ⟨by omega, by trivial⟩
    · rcases Nat.lt_or_ge c 0x10000 with h3 | h3
      · refine ⟨0xE0 + c / 4096,
          (0x80 + c / 64 % 64) :: (0x80 + c % 64) :: rest, ?_, ?_⟩
        · unfold encodeChar
          rw [if_neg (by omega), if_neg (by omega), if_pos h3]
          rfl
        · unfold decodeOne
          rw [if_neg (by omega), if_neg (by omega),
            if_pos (by constructor <;> omega)]
          try simp only
          rw [if_pos (by constructor <;> split_ifs <;> omega)]
          try simp only
          rw [if_pos (by constructor <;> omega)]
          simp only [Prod.mk.injEq]
          refine ⟨by omega, by trivial⟩
      · refine ⟨0xF0 + c / 0x40000,
          (0x80 + c / 4096 % 64) :: (0x80 + c / 64 % 64) ::
            (0x80 + c % 64) :: rest, ?_, ?_⟩
        · unfold encodeChar
          rw [if_neg (by omega), if_neg (by omega), if_neg (by omega)]
          rfl
        · unfold decodeOne
          rw [if_neg (by omega), if_neg (by omega), if_neg (by omega),
            if_pos (by constructor <;> omega)]
          try simp only
          rw [if_pos (by constructor <;> split_ifs <;> omega)]
          try simp only
          rw [if_pos (by constructor <;> omega)]
          try simp only
          rw [if_pos (by constructor <;> omega)]
          simp only [Prod.mk.injEq]
          refine ⟨by omega, by trivial⟩

/-- Decoding is a left inverse of encoding on valid scalar values
(JS strings round-trip through `Buffer.from(s, 'utf-8').toString('utf-8')`). -/
lemma decodeUtf8_encodeUtf8 (s : List Nat) (hv : ∀ c ∈ s, validScalar c) :
    decodeUtf8 (encodeUtf8 s) = s := by
  induction s with
  | nil => simp [encodeUtf8, decodeUtf8]
  | cons c t ih =>
    have hc : validScalar c := hv c (List.mem_cons_self _ _)
    obtain ⟨b1, tail, heq, hdec⟩ := decodeOne_encodeChar c hc (encodeUtf8 t)
    show decodeUtf8 (encodeChar c ++ encodeUtf8 t) = c :: t
    rw [heq, decodeUtf8, hdec]
    try simp only
    rw [ih fun x hx => hv x (List.mem_cons_of_mem _ hx)]

/-! ## Helper lemmas: `jsTrim` -/

/-- `dropWhile` is idempotent. -/
lemma dropWhile_idem (p : Nat → Bool) :
    ∀ l : List Nat, (l.dropWhile p).dropWhile p = l.dropWhile p := by
  intro l
  induction l with
  | nil => rfl
  | cons a t ih =>
    rw [List.dropWhile_cons]
    split
    · exact ih
    · rw [List.dropWhile_cons]
      split
      · simp_all
      · rfl

/-- A nonempty list fixed by `dropWhile p` has a head refuting `p`. -/
lemma head_false_of_dropWhile_fixed (p : Nat → Bool) (c : Nat) (t : List Nat)
    (h : (c :: t).dropWhile p = c :: t) : p c = false := by
  by_contra hc
  have hc2 : p c = true := by simp_all
  rw [List.dropWhile_cons, if_pos hc2] at h
  have h1 : (t.dropWhile p).length ≤ t.length :=
    (List.dropWhile_sublist (p := p) (l := t)).length_le
  have h2 := congrArg List.length h
  simp only [List.length_cons] at h2
  omega

/-- A prefix of a list fixed by `dropWhile p` is itself fixed
(`dropWhile` only inspects the head). -/
lemma dropWhile_fixed_of_prefix (p : Nat → Bool) (u v : List Nat)
    (h : (u ++ v).dropWhile p = u ++ v) : u.dropWhile p = u := by
  cases u with
  | nil => rfl
  | cons c t =>
    have hc : p c = false :=
      head_false_of_dropWhile_fixed p c (t ++ v) (by simpa using h)
    rw [List.dropWhile_cons, if_neg (by simp_all)]

/-- JS `trim` is idempotent: a trimmed string trims to itself. -/
lemma jsTrim_idem (s : List Nat) : jsTrim (jsTrim s) = jsTrim s := by
  have hbfix := dropWhile_idem isJsWhitespace s
  have hxfix := dropWhile_idem isJsWhitespace
    ((s.dropWhile isJsWhitespace).reverse)
  have hdecomp : s.dropWhile isJsWhitespace =
      ((s.dropWhile isJsWhitespace).reverse.dropWhile isJsWhitespace).reverse
        ++ ((s.dropWhile isJsWhitespace).reverse.takeWhile
              isJsWhitespace).reverse := by
    conv_lhs => rw [← List.reverse_reverse (s.dropWhile isJsWhitespace)]
    rw [← List.reverse_append, List.takeWhile_append_dropWhile]
  have hA : (((s.dropWhile isJsWhitespace).reverse.dropWhile
      isJsWhitespace).reverse).dropWhile isJsWhitespace =
      ((s.dropWhile isJsWhitespace).reverse.dropWhile
        isJsWhitespace).reverse := by
    apply dropWhile_fixed_of_prefix isJsWhitespace _
      ((s.dropWhile isJsWhitespace).reverse.takeWhile isJsWhitespace).reverse
    rw [← hdecomp]
    exact hbfix
  show ((((jsTrim s).dropWhile isJsWhitespace).reverse).dropWhile
    isJsWhitespace).reverse = jsTrim s
  unfold jsTrim
  rw [hA, List.reverse_reverse, hxfix]

/-- Everything in `jsTrim s` comes from `s`. -/
lemma mem_jsTrim (a : Nat) (s : List Nat) (h : a ∈ jsTrim s) : a ∈ s := by
  unfold jsTrim at h
  rw [List.mem_reverse] at h
  have h1 := (List.dropWhile_sublist (l := (s.dropWhile isJsWhitespace).reverse)
    (p := isJsWhitespace)).mem h
  rw [List.mem_reverse] at h1
  exact (List.dropWhile_sublist (l := s) (p := isJsWhitespace)).mem h1



/-! ## Helper lemmas: the binary reader -/

lemma readUInt32LE_cons12_at0 (x0 x1 x2 x3 x4 x5 x6 x7 x8 x9 x10 x11 : Nat)
    (tl : List Nat) :
    readUInt32LE (x0::x1::x2::x3::x4::x5::x6::x7::x8::x9::x10::x11::tl) 0 =
      x0 + 256 * x1 + 65536 * x2 + 16777216 * x3 := rfl

lemma readUInt32LE_cons12_at4 (x0 x1 x2 x3 x4 x5 x6 x7 x8 x9 x10 x11 : Nat)
    (tl : List Nat) :
    readUInt32LE (x0::x1::x2::x3::x4::x5::x6::x7::x8::x9::x10::x11::tl) 4 =
      x4 + 256 * x5 + 65536 * x6 + 16777216 * x7 := rfl

lemma readUInt32LE_cons12_at8 (x0 x1 x2 x3 x4 x5 x6 x7 x8 x9 x10 x11 : Nat)
    (tl : List Nat) :
    readUInt32LE (x0::x1::x2::x3::x4::x5::x6::x7::x8::x9::x10::x11::tl) 8 =
      x8 + 256 * x9 + 65536 * x10 + 16777216 * x11 := rfl

lemma drop12_cons12 (x0 x1 x2 x3 x4 x5 x6 x7 x8 x9 x10 x11 : Nat)
    (tl : List Nat) :
    (x0::x1::x2::x3::x4::x5::x6::x7::x8::x9::x10::x11::tl).drop 12 = tl := rfl

/-- Recombining the four little-endian digits of a 32-bit value. -/
lemma le32_digits (k : Nat) (hk : k < 2 ^ 32) :
    k % 256 + 256 * (k / 256 % 256) + 65536 * (k / 65536 % 256) +
      16777216 * (k / 16777216 % 256) = k := by
  omega

/-- On a stopping tail the scan returns no packet, warning exactly when a
full header was present (whose declared length then overruns). -/
lemma parseBinGo_stopper (tail : List Nat) (h : scanStopper tail) :
    parseBinGo tail = ([], decide (12 ≤ tail.length)) := by
  rw [parseBinGo]
  by_cases h12 : tail.length < 12
  · rw [dif_pos h12]
    have hn : ¬ (12 ≤ tail.length) := by omega
    simp [hn]
  · rw [dif_neg h12]
    dsimp only
    have hstop : readUInt32LE tail 8 + 12 > tail.length := by
      rcases h with h | h
      · omega
      · exact h
    rw [if_pos (by simp only [List.length_drop]; omega)]
    have h12 : 12 ≤ tail.length := by omega
    simp [h12]

/-- Unfolding the scan at a buffer that starts with a full header. -/
lemma parseBinGo_cons12 (x0 x1 x2 x3 x4 x5 x6 x7 x8 x9 x10 x11 : Nat)
    (tl : List Nat) :
    parseBinGo (x0::x1::x2::x3::x4::x5::x6::x7::x8::x9::x10::x11::tl) =
      (if x8 + 256 * x9 + 65536 * x10 + 16777216 * x11 > tl.length
       then ([], true)
       else
         ((⟨x0 + 256 * x1 + 65536 * x2 + 16777216 * x3,
            x4 + 256 * x5 + 65536 * x6 + 16777216 * x7,
            tl.take (x8 + 256 * x9 + 65536 * x10 + 16777216 * x11)⟩ : Packet)
          :: (parseBinGo
            (tl.drop (x8 + 256 * x9 + 65536 * x10 + 16777216 * x11))).1,
          (parseBinGo
            (tl.drop (x8 + 256 * x9 + 65536 * x10 + 16777216 * x11))).2)) := by
  rw [parseBinGo]
  rw [dif_neg (by simp only [List.length_cons]; omega)]
  dsimp only
  rw [readUInt32LE_cons12_at0, readUInt32LE_cons12_at4, readUInt32LE_cons12_at8,
    drop12_cons12]

/-- The binary reader, applied to a buffer laid out as a sequence of
well-formed frames followed by a stopping fragment, returns exactly one
packet per frame with the header fields and the payload of that frame, and
warns exactly when the fragment still contains a full header. -/
lemma parseBinGo_frames :
    ∀ (fs : List Packet) (tail : List Nat), (∀ p ∈ fs, frameWF p) →
      scanStopper tail →
      parseBinGo (encodeFrames fs ++ tail) =
        (fs, decide (12 ≤ tail.length)) := by
  intro fs
  induction fs with
  | nil =>
    intro tail _ hs
    rw [show encodeFrames [] ++ tail = tail by simp [encodeFrames]]
    exact parseBinGo_stopper tail hs
  | cons p fs ih =>
    intro tail hwf hs
    obtain ⟨sec, usec, dat⟩ := p
    have hwfp := hwf _ (List.mem_cons_self _ _)
    obtain ⟨h1, h2, h3⟩ := hwfp
    have hshape : encodeFrames (⟨sec, usec, dat⟩ :: fs) ++ tail =
        (sec % 256) :: (sec / 256 % 256) :: (sec / 65536 % 256) ::
        (sec / 16777216 % 256) ::
        (usec % 256) :: (usec / 256 % 256) :: (usec / 65536 % 256) ::
        (usec / 16777216 % 256) ::
        (dat.length % 256) :: (dat.length / 256 % 256) ::
        (dat.length / 65536 % 256) :: (dat.length / 16777216 % 256) ::
        (dat ++ (encodeFrames fs ++ tail)) := by
      simp [encodeFrames, encodeFrame, encodeLE32]
    rw [hshape, parseBinGo_cons12]
    rw [le32_digits sec h1, le32_digits usec h2, le32_digits dat.length h3]
    rw [if_neg (by simp only [List.length_append]; omega)]
    rw [show (dat ++ (encodeFrames fs ++ tail)).take dat.length = dat from
      List.take_left _ _]
    rw [show (dat ++ (encodeFrames fs ++ tail)).drop dat.length =
      encodeFrames fs ++ tail from List.drop_left _ _]
    rw [ih tail (fun q hq => hwf q (List.mem_cons_of_mem _ hq)) hs]



/-- Termination measure of the scan made quantitative: every parsed packet
consumed at least its 12 header bytes, so the scan performs at most
`buf.length / 12` iterations. -/
lemma parseBinGo_length_aux : ∀ (n : Nat) (buf : List Nat), buf.length ≤ n →
    12 * (parseBinGo buf).1.length ≤ buf.length := by
  intro n
  induction n with
  | zero =>
    intro buf h
    rw [parseBinGo, dif_pos (by omega)]
    simp
  | succ n ih =>
    intro buf h
    rw [parseBinGo]
    by_cases h12 : buf.length < 12
    · rw [dif_pos h12]
      simp
    · rw [dif_neg h12]
      dsimp only
      by_cases hsz : readUInt32LE buf 8 > (buf.drop 12).length
      · rw [if_pos hsz]
        simp
      · rw [if_neg hsz]
        have hrec := ih ((buf.drop 12).drop (readUInt32LE buf 8))
          (by simp only [List.length_drop]; omega)
        simp only [List.length_drop] at hrec hsz
        simp only [List.length_cons]
        omega

/-! ## Helper lemmas: the text reader -/

/-- Each line of the split came from the input text. -/
lemma splitLines_mem : ∀ (s : List Nat), ∀ line ∈ splitLines s,
    ∀ a ∈ line, a ∈ s := by
  intro s
  induction s using splitLines.induct with
  | case1 =>
    intro line hl a ha
    simp [splitLines] at hl
    subst hl
    simp at ha
  | case2 rest ih =>
    intro line hl a ha
    rw [splitLines] at hl
    rcases List.mem_cons.mp hl with h | h
    · subst h; simp at ha
    · exact List.mem_cons_of_mem _ (List.mem_cons_of_mem _ (ih line h a ha))
  | case3 rest ih =>
    intro line hl a ha
    rw [splitLines] at hl
    rcases List.mem_cons.mp hl with h | h
    · subst h; simp at ha
    · exact List.mem_cons_of_mem _ (ih line h a ha)
  | case4 c rest h1 h2 h3 ih =>
    intro line hl a ha
    rw [splitLines] at hl
    rotate_left
    · exact h1
    · exact h2
    rw [h3] at hl
    simp only [List.mem_singleton] at hl
    subst hl
    simp only [List.mem_singleton] at ha
    subst ha
    exact List.mem_cons_self _ _
  | case5 c rest h1 h2 l ls h3 ih =>
    intro line hl a ha
    rw [splitLines] at hl
    rotate_left
    · exact h1
    · exact h2
    rw [h3] at hl
    simp only [List.mem_cons] at hl
    rcases hl with hl | hl
    · subst hl
      rcases List.mem_cons.mp ha with h | h
      · subst h; exact List.mem_cons_self _ _
      · refine List.mem_cons_of_mem _ (ih l ?_ a h)
        rw [h3]; exact List.mem_cons_self _ _
    · exact List.mem_cons_of_mem _
        (ih line (by rw [h3]; exact List.mem_cons_of_mem _ hl) a ha)

/-- The second capture group of a successful anchored match consists of
characters of the matched string. -/
lemma matchAt_body_mem (l ds body : List Nat)
    (h : matchAt l = some (ds, body)) : ∀ a ∈ body, a ∈ l := by
  intro a ha
  unfold matchAt at h
  split at h
  · rename_i rest
    by_cases he : (rest.takeWhile isDigit).isEmpty
    · rw [if_pos he] at h; simp at h
    · rw [if_neg he] at h
      split at h
      · rename_i rest2 heq2
        by_cases hw : (rest2.takeWhile isWordChar).isEmpty
        · rw [if_pos hw] at h; simp at h
        · rw [if_neg hw] at h
          split at h
          · rename_i rest3 heq3
            simp only [Option.some.injEq, Prod.mk.injEq] at h
            obtain ⟨hds, hbody⟩ := h
            subst hbody
            have h1 : a ∈ rest3 :=
              (List.takeWhile_sublist _).mem ha
            have h2 : a ∈ rest2 := by
              apply List.mem_of_mem_drop
                (n := (rest2.takeWhile isWordChar).length)
              rw [heq3]
              exact List.mem_cons_of_mem _ h1
            have h3 : a ∈ rest := by
              apply List.mem_of_mem_drop
                (n := (rest.takeWhile isDigit).length)
              rw [heq2]
              exact List.mem_cons_of_mem _ h2
            exact List.mem_cons_of_mem _ (List.mem_cons_of_mem _ h3)
          · simp at h
      · simp at h
  · simp at h

/-- The second capture group of the scanning match consists of characters
of the line. -/
lemma findCMatch_body_mem : ∀ (l ds body : List Nat),
    findCMatch l = some (ds, body) → ∀ a ∈ body, a ∈ l := by
  intro l
  induction l with
  | nil => intro ds body h; simp [findCMatch] at h
  | cons c rest ih =>
    intro ds body h a ha
    rw [findCMatch] at h
    split at h
    · rename_i r heq
      rw [h] at heq
      exact matchAt_body_mem _ _ _ heq a ha
    · exact List.mem_cons_of_mem _ (ih ds body h a ha)

/-- Shape of a line the text reader accepts: the sentinel holds, the
pattern matched, the trimmed body starts with `'!'`, and the packet is
built from the captures with `timestampUsec = 0` and the re-encoded
trimmed body as payload. -/
lemma parseNm4Line_some (line : List Nat) (p : Packet)
    (h : parseNm4Line line = some p) :
    startsWithSentinel line = true ∧
      ∃ ds body, findCMatch line = some (ds, body) ∧
        startsWithBang (jsTrim body) = true ∧
        p = ⟨natOfDigits ds, 0, encodeUtf8 (jsTrim body)⟩ := by
  unfold parseNm4Line at h
  by_cases hs : startsWithSentinel line
  · rw [if_neg (by simp [hs])] at h
    refine ⟨hs, ?_⟩
    split at h
    · simp at h
    · rename_i ds body heq
      by_cases hb : startsWithBang (jsTrim body)
      · rw [if_pos hb] at h
        simp only [Option.some.injEq] at h
        exact ⟨ds, body, heq, hb, h.symm⟩
      · rw [if_neg hb] at h
        simp at h
  · rw [if_pos (by simp [hs])] at h
    simp at h

/-- A line without the sentinel is skipped. -/
lemma parseNm4Line_none_of_sentinel (line : List Nat)
    (h : startsWithSentinel line = false) : parseNm4Line line = none := by
  unfold parseNm4Line
  rw [if_pos (by simp [h])]

/-- A line on which the pattern fails is skipped. -/
lemma parseNm4Line_none_of_nomatch (line : List Nat)
    (h : findCMatch line = none) : parseNm4Line line = none := by
  unfold parseNm4Line
  split
  · rfl
  · rw [h]

/-- A line whose trimmed body does not start with `'!'` is skipped. -/
lemma parseNm4Line_none_of_nobang (line ds body : List Nat)
    (hm : findCMatch line = some (ds, body))
    (h : startsWithBang (jsTrim body) = false) :
    parseNm4Line line = none := by
  unfold parseNm4Line
  split
  · rfl
  · rw [hm]
    simp only [h]
    rfl

/-! ## Helper lemmas: the drain loop and the poll loop -/

/-- A packet is due at simulated time `simT` when its instant has been
reached — the guard of the inner drain loop. -/
def due (simT : ℚ) (p : Packet) : Bool := instantOf p ≤ simT

/-- A list's `takeWhile` image is the `take` of its own length. -/
lemma take_length_takeWhile {α : Type} (q : α → Bool) :
    ∀ l : List α, l.take (l.takeWhile q).length = l.takeWhile q := by
  intro l
  induction l with
  | nil => rfl
  | cons c rest ih =>
    by_cases hq : q c
    · simp [List.takeWhile_cons, hq, List.take_succ_cons, ih]
    · simp [List.takeWhile_cons, hq]

/-- The drain loop delivers the marker-passing packets among the maximal
due prefix of the remaining packets, and advances the cursor by exactly
that prefix's length. -/
lemma drainPackets_eq (simT : ℚ) :
    ∀ l : List Packet,
      drainPackets simT l =
        ((l.takeWhile (due simT)).filterMap sendOf,
          (l.takeWhile (due simT)).length) := by
  intro l
  induction l with
  | nil => rfl
  | cons p rest ih =>
    by_cases h : instantOf p ≤ simT
    · by_cases hb : startsWithBang (jsTrim (decodeUtf8 p.data))
      · simp [drainPackets, h, ih, due, List.takeWhile_cons, sendOf, hb]
      · simp [drainPackets, h, ih, due, List.takeWhile_cons, sendOf, hb]
    · simp [drainPackets, h, due, List.takeWhile_cons]

/-- `take i` plus the due prefix of `drop i` is a longer `take`. -/
lemma take_append_takeWhile_drop {α : Type} (l : List α) (i : Nat)
    (q : α → Bool) :
    l.take i ++ (l.drop i).takeWhile q =
      l.take (i + ((l.drop i).takeWhile q).length) := by
  rw [List.take_add]
  rw [take_length_takeWhile]

/-- The simulated time computed at a poll iteration (line 544). -/
def simTimeAt (startTime rate pStart now : ℚ) : ℚ :=
  startTime + (now - pStart) * rate

/-- Effect of one poll iteration on the cursor and the `onSend` sequence:
the heartbeat branch touches neither, and the drain appends the deliveries
of the due prefix. -/
lemma pollStep_cursor_sends (packets : List Packet)
    (startTime totalDur rate pStart : ℚ) (st : SchedState) (now : ℚ) :
    (pollStep packets startTime totalDur rate pStart st now).packetIndex =
        st.packetIndex +
          (((packets.drop st.packetIndex).takeWhile
            (due (simTimeAt startTime rate pStart now))).length) ∧
      (pollStep packets startTime totalDur rate pStart st now).sends =
        st.sends ++
          ((packets.drop st.packetIndex).takeWhile
            (due (simTimeAt startTime rate pStart now))).filterMap sendOf := by
  unfold pollStep simTimeAt
  dsimp only
  split <;> simp [drainPackets_eq]

/-- The invariant carried by the poll loop: the cursor stays in range and
the `onSend` sequence so far is exactly the deliveries of the packets
already passed. -/
def SendsInv (packets : List Packet) (st : SchedState) : Prop :=
  st.packetIndex ≤ packets.length ∧
    st.sends = deliveriesOf (packets.take st.packetIndex)

lemma pollStep_sendsInv (packets : List Packet)
    (startTime totalDur rate pStart : ℚ) (st : SchedState) (now : ℚ)
    (h : SendsInv packets st) :
    SendsInv packets (pollStep packets startTime totalDur rate pStart st now) := by
  obtain ⟨hle, hsends⟩ := h
  obtain ⟨hidx, hsnd⟩ :=
    pollStep_cursor_sends packets startTime totalDur rate pStart st now
  constructor
  · rw [hidx]
    have hlen : (((packets.drop st.packetIndex).takeWhile
        (due (simTimeAt startTime rate pStart now))).length) ≤
        (packets.drop st.packetIndex).length :=
      List.Sublist.length_le (List.takeWhile_sublist _)
    simp only [List.length_drop] at hlen
    omega
  · rw [hsnd, hidx, hsends]
    unfold deliveriesOf
    rw [← List.filterMap_append]
    rw [take_append_takeWhile_drop]

lemma playLoop_sendsInv (packets : List Packet)
    (startTime totalDur rate pStart : ℚ) :
    ∀ (nows : List ℚ) (st : SchedState), SendsInv packets st →
      SendsInv packets
        (playLoop packets startTime totalDur rate pStart st nows) := by
  intro nows
  induction nows with
  | nil => intro st h; exact h
  | cons now rest ih =>
    intro st h
    unfold playLoop
    split
    · exact ih _ (pollStep_sendsInv packets startTime totalDur rate pStart st now h)
    · exact h

/-- A complete run of the revision 2 scheduler delivers exactly the
marker-passing packets, in file order. -/
lemma playPacketsV2_sends_of_completes (packets : List Packet)
    (rate pStart : ℚ) (nows : List ℚ)
    (h : completes packets rate pStart nows) :
    (playPacketsV2 packets rate pStart nows).sends = deliveriesOf packets := by
  unfold completes playPacketsV2 at *
  by_cases hn : packets.length = 0
  · rw [List.length_eq_zero] at hn
    subst hn
    simp [deliveriesOf]
  · simp only [if_neg hn] at h ⊢
    have hinv : SendsInv packets
        (playLoop packets (startInstant packets) (totalDuration packets)
          rate pStart
          { packetIndex := 0, lastHeartbeatSimTime := startInstant packets,
            heartbeats := [], sends := [], loggedNoPackets := false } nows) := by
      apply playLoop_sendsInv
      exact ⟨Nat.zero_le _, by simp [deliveriesOf]⟩
    rw [hinv.2, h, List.take_length]

/-! ## Helper lemmas: heartbeats -/

/-- Heartbeat bookkeeping invariant: recorded simulated times form a
non-decreasing chain bounded by `lastHeartbeatSimTime`, every recorded
percentage is the percentage of its simulated time, and (when the clock
readings never precede `playbackStart` and the rate is positive) no
recorded simulated time precedes `startTime`. -/
def HbInv (startTime totalDur : ℚ) (st : SchedState) : Prop :=
  List.Chain' (fun x y : ℚ × ℚ => x.1 ≤ y.1) st.heartbeats ∧
    (∀ x ∈ st.heartbeats, x.1 ≤ st.lastHeartbeatSimTime) ∧
    (∀ x ∈ st.heartbeats, x.2 = percentPlayed startTime totalDur x.1) ∧
    (∀ x ∈ st.heartbeats, startTime ≤ x.1)

lemma pollStep_hbInv (packets : List Packet)
    (startTime totalDur rate pStart : ℚ) (st : SchedState) (now : ℚ)
    (hrate : 0 < rate) (hnow : pStart ≤ now)
    (h : HbInv startTime totalDur st) :
    HbInv startTime totalDur
      (pollStep packets startTime totalDur rate pStart st now) := by
  obtain ⟨hchain, hbound, hpct, hstart⟩ := h
  have hsim : startTime ≤ startTime + (now - pStart) * rate := by
    have : 0 ≤ (now - pStart) * rate :=
      mul_nonneg (by linarith) (le_of_lt hrate)
    linarith
  unfold pollStep
  dsimp only
  split
  case isTrue hfire =>
    refine ⟨?_, ?_, ?_, ?_⟩
    · simp only []
      rw [List.chain'_append]
      refine ⟨hchain, List.chain'_singleton _, ?_⟩
      intro x hx y hy
      simp only [List.head?_cons, Option.mem_def, Option.some.injEq] at hy
      subst hy
      have hxmem : x ∈ st.heartbeats := List.mem_of_mem_getLast? hx
      have := hbound x hxmem
      simp only
      linarith [hfire]
    · intro x hx
      simp only [List.mem_append, List.mem_singleton] at hx
      rcases hx with hx | hx
      · have := hbound x hx
        simp only
        linarith [hfire]
      · subst hx; simp
    · intro x hx
      simp only [List.mem_append, List.mem_singleton] at hx
      rcases hx with hx | hx
      · exact hpct x hx
      · subst hx; rfl
    · intro x hx
      simp only [List.mem_append, List.mem_singleton] at hx
      rcases hx with hx | hx
      · exact hstart x hx
      · subst hx; exact hsim
  case isFalse =>
    exact ⟨hchain, hbound, hpct, hstart⟩

lemma playLoop_hbInv (packets : List Packet)
    (startTime totalDur rate pStart : ℚ) (hrate : 0 < rate) :
    ∀ (nows : List ℚ), (∀ now ∈ nows, pStart ≤ now) →
      ∀ (st : SchedState), HbInv startTime totalDur st →
        HbInv startTime totalDur
          (playLoop packets startTime totalDur rate pStart st nows) := by
  intro nows
  induction nows with
  | nil => intro _ st h; exact h
  | cons now rest ih =>
    intro hnows st h
    unfold playLoop
    split
    · exact ih (fun x hx => hnows x (List.mem_cons_of_mem _ hx)) _
        (pollStep_hbInv packets startTime totalDur rate pStart st now hrate
          (hnows now (List.mem_cons_self _ _)) h)
    · exact h

/-- Mapping a chain of simulated times through `percentPlayed` with a
positive duration yields a non-decreasing chain of percentages. -/
lemma chain_percent (startTime totalDur : ℚ) (hdur : 0 < totalDur) :
    ∀ hb : List (ℚ × ℚ),
      List.Chain' (fun x y : ℚ × ℚ => x.1 ≤ y.1) hb →
      (∀ x ∈ hb, x.2 = percentPlayed startTime totalDur x.1) →
      List.Chain' (· ≤ ·) (hb.map Prod.snd) := by
  intro hb
  induction hb with
  | nil => intro _ _; simp
  | cons x t ih =>
    intro hchain hpct
    rw [List.chain'_cons'] at hchain
    rw [List.map_cons, List.chain'_cons']
    constructor
    · intro y hy
      rw [List.head?_map] at hy
      simp only [Option.mem_def, Option.map_eq_some'] at hy
      obtain ⟨z, hz, rfl⟩ := hy
      have hzt : z ∈ t := List.mem_of_mem_head? hz
      have h1 : x.1 ≤ z.1 := hchain.1 z hz
      rw [hpct x (List.mem_cons_self _ _), hpct z (List.mem_cons_of_mem _ hzt)]
      unfold percentPlayed
      have h2 : (x.1 - startTime) / totalDur ≤ (z.1 - startTime) / totalDur :=
        (div_le_div_iff_of_pos_right hdur).mpr (by linarith)
      exact mul_le_mul_of_nonneg_right h2 (by norm_num)
    · exact ih hchain.2 fun z hz => hpct z (List.mem_cons_of_mem _ hz)

/-- The heartbeat branch of one poll iteration, in isolation: a heartbeat
line is emitted at this iteration exactly when at least 5 simulated
seconds have passed since the last one. -/
lemma pollStep_heartbeats (packets : List Packet)
    (startTime totalDur rate pStart : ℚ) (st : SchedState) (now : ℚ) :
    (pollStep packets startTime totalDur rate pStart st now).heartbeats =
      st.heartbeats ++
        (if simTimeAt startTime rate pStart now - st.lastHeartbeatSimTime ≥ 5
         then [(simTimeAt startTime rate pStart now,
                percentPlayed startTime totalDur
                  (simTimeAt startTime rate pStart now))]
         else []) := by
  unfold pollStep simTimeAt
  dsimp only
  split <;> simp

/-- While every observed simulated time stays short of
`startTime + 5`, the heartbeat branch never fires. -/
lemma playLoop_no_heartbeat (packets : List Packet)
    (startTime totalDur rate pStart : ℚ) :
    ∀ (nows : List ℚ),
      (∀ now ∈ nows, simTimeAt startTime rate pStart now - startTime < 5) →
      ∀ (st : SchedState), st.lastHeartbeatSimTime = startTime →
        st.heartbeats = [] →
        (playLoop packets startTime totalDur rate pStart st nows).heartbeats
            = [] ∧
          (playLoop packets startTime totalDur rate pStart st
            nows).lastHeartbeatSimTime = startTime := by
  intro nows
  induction nows with
  | nil => intro _ st h1 h2; exact ⟨h2, h1⟩
  | cons now rest ih =>
    intro hnows st h1 h2
    unfold playLoop
    split
    · have hstep : ¬ (simTimeAt startTime rate pStart now -
          st.lastHeartbeatSimTime ≥ 5) := by
        rw [h1]
        have := hnows now (List.mem_cons_self _ _)
        linarith
      have hlast :
          (pollStep packets startTime totalDur rate pStart st
            now).lastHeartbeatSimTime = startTime := by
        unfold pollStep at *
        unfold simTimeAt at hstep
        dsimp only at *
        rw [if_neg hstep]
        exact h1
      have hhb :
          (pollStep packets startTime totalDur rate pStart st
            now).heartbeats = [] := by
        unfold pollStep at *
        unfold simTimeAt at hstep
        dsimp only at *
        rw [if_neg hstep]
        exact h2
      exact ih (fun x hx => hnows x (List.mem_cons_of_mem _ hx)) _ hlast hhb
    · exact ⟨h2, h1⟩

/-! ## Helper lemmas: composite facts -/

/-- When every packet passes the marker filter, the delivery sequence is
the full packet sequence. -/
lemma deliveriesOf_all_marker :
    ∀ l : List Packet,
      (∀ p ∈ l, startsWithBang (jsTrim (decodeUtf8 p.data)) = true) →
      deliveriesOf l =
        l.map fun p => (instantOf p, jsTrim (decodeUtf8 p.data)) := by
  intro l
  induction l with
  | nil => intro _; rfl
  | cons p t ih =>
    intro h
    have hp : sendOf p = some (instantOf p, jsTrim (decodeUtf8 p.data)) := by
      unfold sendOf
      dsimp only
      rw [if_pos (h p (List.mem_cons_self _ _))]
    unfold deliveriesOf at *
    rw [List.filterMap_cons_some hp, List.map_cons,
      ih fun q hq => h q (List.mem_cons_of_mem _ hq)]

/-- Every packet the text reader yields carries a payload that decodes to
an already-trimmed sentence starting with `'!'` (provided the input text
consists of scalar values, as Node's file decoding guarantees). -/
lemma parseNm4File_marker (s : List Nat) (hv : ∀ c ∈ s, validScalar c) :
    ∀ p ∈ parseNm4File s,
      decodeUtf8 p.data = jsTrim (decodeUtf8 p.data) ∧
        startsWithBang (jsTrim (decodeUtf8 p.data)) = true := by
  intro p hp
  unfold parseNm4File at hp
  rw [List.mem_filterMap] at hp
  obtain ⟨line, hline, hpl⟩ := hp
  obtain ⟨hsent, ds, body, hmatch, hbang, hshape⟩ := parseNm4Line_some line p hpl
  have hvbody : ∀ c ∈ jsTrim body, validScalar c := by
    intro c hc
    exact hv c (splitLines_mem s line hline c
      (findCMatch_body_mem line ds body hmatch c (mem_jsTrim c body hc)))
  have hdec : decodeUtf8 p.data = jsTrim body := by
    rw [hshape]
    exact decodeUtf8_encodeUtf8 (jsTrim body) hvbody
  refine ⟨?_, ?_⟩
  · rw [hdec, jsTrim_idem]
  · rw [hdec, jsTrim_idem]
    exact hbang

/-- Top-level form of the no-heartbeat fact: while every poll's simulated
time stays short of `startInstant + 5`, a run emits no heartbeat. -/
lemma playPacketsV2_no_heartbeat (packets : List Packet)
    (rate pStart : ℚ) (nows : List ℚ) (hn : ¬ packets.length = 0)
    (h : ∀ now ∈ nows,
      simTimeAt (startInstant packets) rate pStart now - startInstant packets
        < 5) :
    (playPacketsV2 packets rate pStart nows).heartbeats = [] := by
  unfold playPacketsV2
  rw [if_neg hn]
  exact (playLoop_no_heartbeat packets (startInstant packets)
    (totalDuration packets) rate pStart nows h _ rfl rfl).1

/-- Top-level form of the heartbeat invariant. -/
lemma playPacketsV2_hbInv (packets : List Packet) (rate pStart : ℚ)
    (nows : List ℚ) (hrate : 0 < rate) (hnows : ∀ now ∈ nows, pStart ≤ now) :
    HbInv (startInstant packets) (totalDuration packets)
      (playPacketsV2 packets rate pStart nows) := by
  unfold playPacketsV2
  split
  · exact ⟨by simp, by simp, by simp, by simp⟩
  · exact playLoop_hbInv packets (startInstant packets) (totalDuration packets)
      rate pStart hrate nows hnows _ ⟨by simp, by simp, by simp, by simp⟩

/-- The revision 1 scheduler's delivery sequence, independent of the
clock state it threads. -/
lemma playPacketsV1Go_eq (startTime pStart : ℚ) :
    ∀ (l : List Packet) (now : ℚ),
      playPacketsV1Go startTime pStart now l = deliveriesOf l := by
  intro l
  induction l with
  | nil => intro now; rfl
  | cons p t ih =>
    intro now
    rw [playPacketsV1Go]
    try dsimp only
    split
    · rename_i hb
      have hp : sendOf p = some (instantOf p, jsTrim (decodeUtf8 p.data)) := by
        unfold sendOf
        dsimp only
        rw [if_pos hb]
      unfold deliveriesOf
      rw [List.filterMap_cons_some hp, ih]
      rfl
    · rename_i hb
      have hp : sendOf p = none := by
        unfold sendOf
        dsimp only
        rw [if_neg hb]
      unfold deliveriesOf
      rw [List.filterMap_cons_none hp, ih]
      rfl

/-- Revision 1 delivers exactly the marker-passing packets in file order. -/
lemma playPacketsV1_eq (packets : List Packet) (pStart : ℚ) :
    playPacketsV1 packets pStart = deliveriesOf packets := by
  cases packets with
  | nil => rfl
  | cons p t =>
    unfold playPacketsV1
    exact playPacketsV1Go_eq _ _ _ _

/-! ## Claims -/

/-- C1: For every finite packet sequence given to the poll-driven scheduler
(`playPackets`, revision 2) with rate `r > 0`: (a) on any completing run
the `onSend` invocations are exactly the packets whose payload, decoded as
UTF-8 and trimmed, begins with `'!'`, in file order — in particular
out-of-order timestamps never cause reordering or dropping, since the
cursor only moves forward; (b) the drain loop processes exactly the
maximal prefix of remaining packets whose instant is `≤` the current
simulated time, so a packet is drained only once it is due; (c) for the
empty sequence the scheduler returns immediately with no `onSend`
invocation, logging that there is nothing to play. -/
theorem claim_C1_scheduler_delivery (packets : List Packet)
    (rate pStart : ℚ) (nows : List ℚ) (hrate : 0 < rate) :
    (completes packets rate pStart nows →
      (playPacketsV2 packets rate pStart nows).sends = deliveriesOf packets) ∧
    (∀ (simT : ℚ) (l : List Packet),
      drainPackets simT l =
        ((l.takeWhile (due simT)).filterMap sendOf,
          (l.takeWhile (due simT)).length)) ∧
    (packets = [] →
      (playPacketsV2 packets rate pStart nows).sends = [] ∧
      (playPacketsV2 packets rate pStart nows).loggedNoPackets = true) := by
  refine ⟨playPacketsV2_sends_of_completes packets rate pStart nows,
    drainPackets_eq, ?_⟩
  intro h
  subst h
  exact ⟨rfl, rfl⟩

/-- Witness for C1 at a concrete three-packet input (second payload fails
the marker filter) on a completing one-poll run. -/
theorem claim_C1_scheduler_delivery_witness :
    (playPacketsV2 [⟨10, 0, [0x21, 0x41]⟩, ⟨11, 0, [0x78, 0x42]⟩,
        ⟨12, 0, [0x21, 0x43]⟩] 1 0 [20]).sends =
      deliveriesOf [⟨10, 0, [0x21, 0x41]⟩, ⟨11, 0, [0x78, 0x42]⟩,
        ⟨12, 0, [0x21, 0x43]⟩] :=
  (claim_C1_scheduler_delivery _ 1 0 [20] (by norm_num)).1 (by
    unfold completes
    norm_num [playPacketsV2, playLoop, pollStep, drainPackets, startInstant,
      endInstant, totalDuration, instantOf, percentPlayed, decodeUtf8,
      decodeOne, jsTrim, isJsWhitespace, startsWithBang])

/-- C2: For every buffer laid out as complete frames (12-byte little-endian
header: seconds, microseconds, payload length; then that many payload
bytes) followed by a trailing fragment that stops the scan, `parseBinFile`
yields exactly one Packet per frame, with fields and payload taken from
that frame; a fragment shorter than a header stops silently
(warning flag `false`), and a fragment whose header declares more payload
than remains stops with the incomplete-packet warning (flag `true`) and
yields no Packet for it. -/
theorem claim_C2_bin_reader_frames (fs : List Packet) (tail : List Nat)
    (hwf : ∀ p ∈ fs, frameWF p) (hstop : scanStopper tail) :
    parseBinFile (encodeFrames fs ++ tail) =
      (fs, decide (12 ≤ tail.length)) :=
  parseBinGo_frames fs tail hwf hstop

/-- Witness for C2: one frame followed by a 12-byte fragment whose header
declares 99 payload bytes — the frame is parsed, the fragment warns. -/
theorem claim_C2_bin_reader_frames_witness :
    parseBinFile (encodeFrames [⟨1000, 2, [0x21, 0x41]⟩] ++
        (encodeLE32 7 ++ encodeLE32 8 ++ encodeLE32 99)) =
      ([⟨1000, 2, [0x21, 0x41]⟩], true) := by
  have h := claim_C2_bin_reader_frames [⟨1000, 2, [0x21, 0x41]⟩]
    (encodeLE32 7 ++ encodeLE32 8 ++ encodeLE32 99)
    (by intro p hp; simp only [List.mem_singleton] at hp; subst hp
        exact ⟨by norm_num, by norm_num, by norm_num⟩)
    (by right; decide)
  rw [h]
  rfl

/-- C4: rate invariance — for any two positive rates (and any clocks and
playback-start instants), two completing runs of the poll-driven scheduler
over the same packet sequence produce identical `onSend` sequences: the
same payloads in the same order.  The rate influences timing only. -/
theorem claim_C4_rate_invariance (packets : List Packet) (r1 r2 : ℚ)
    (pStart1 pStart2 : ℚ) (nows1 nows2 : List ℚ)
    (h1 : 0 < r1) (h2 : 0 < r2)
    (hc1 : completes packets r1 pStart1 nows1)
    (hc2 : completes packets r2 pStart2 nows2) :
    (playPacketsV2 packets r1 pStart1 nows1).sends =
      (playPacketsV2 packets r2 pStart2 nows2).sends := by
  rw [playPacketsV2_sends_of_completes _ _ _ _ hc1,
    playPacketsV2_sends_of_completes _ _ _ _ hc2]

/-- Witness for C4: the same two-packet input replayed at rates 1 and 5
with different clocks delivers identical sequences. -/
theorem claim_C4_rate_invariance_witness :
    (playPacketsV2 [⟨10, 0, [0x21, 0x41]⟩, ⟨12, 0, [0x21, 0x43]⟩]
        1 0 [20]).sends =
      (playPacketsV2 [⟨10, 0, [0x21, 0x41]⟩, ⟨12, 0, [0x21, 0x43]⟩]
        5 3 [3, 6]).sends :=
  claim_C4_rate_invariance _ 1 5 0 3 [20] [3, 6]
    (by norm_num) (by norm_num)
    (by unfold completes
        norm_num [playPacketsV2, playLoop, pollStep, drainPackets,
          startInstant, endInstant, totalDuration, instantOf, percentPlayed,
          decodeUtf8, decodeOne, jsTrim, isJsWhitespace, startsWithBang])
    (by unfold completes
        norm_num [playPacketsV2, playLoop, pollStep, drainPackets,
          startInstant, endInstant, totalDuration, instantOf, percentPlayed,
          decodeUtf8, decodeOne, jsTrim, isJsWhitespace, startsWithBang])

/-- C10: the two scheduler revisions are delivery-equivalent at rate 1
under an ideal monotonic clock: any completing run of the poll-driven
revision 2 invokes `onSend` with the same ordered `(instant, payload)`
sequence as revision 1 — the marker-passing packets in file order. -/
theorem claim_C10_revisions_equivalent (packets : List Packet)
    (pStartV1 pStartV2 : ℚ) (nows : List ℚ)
    (hc : completes packets 1 pStartV2 nows) :
    (playPacketsV2 packets 1 pStartV2 nows).sends =
      playPacketsV1 packets pStartV1 := by
  rw [playPacketsV2_sends_of_completes _ _ _ _ hc, playPacketsV1_eq]

/-- Witness for C10 at a concrete two-packet input. -/
theorem claim_C10_revisions_equivalent_witness :
    (playPacketsV2 [⟨10, 0, [0x21, 0x41]⟩, ⟨12, 0, [0x78, 0x42]⟩]
        1 0 [20]).sends =
      playPacketsV1 [⟨10, 0, [0x21, 0x41]⟩, ⟨12, 0, [0x78, 0x42]⟩] 7 :=
  claim_C10_revisions_equivalent _ 7 0 [20] (by
    unfold completes
    norm_num [playPacketsV2, playLoop, pollStep, drainPackets, startInstant,
      endInstant, totalDuration, instantOf, percentPlayed, decodeUtf8,
      decodeOne, jsTrim, isJsWhitespace, startsWithBang])

/-- C3 (amended): across one run of the poll-driven scheduler with a
positive rate, a clock that never reads earlier than the captured playback
start, and a positive total duration, the percent-complete values of
successive heartbeats are non-decreasing and `≥ 0`, and a heartbeat is
emitted at a poll exactly when simulated time has advanced at least 5
simulated seconds past the last heartbeat's simulated time.  (The code
does not clamp the percentage to 100: see the counterexample, where a
heartbeat emitted after the simulated clock overshoots the last packet
reports 600%.  The positive-duration hypothesis is necessary: an
out-of-order file whose last instant precedes its first makes
`totalDuration` negative and flips the percentage's sign.) -/
theorem claim_C3_heartbeat_monotone (packets : List Packet)
    (rate pStart : ℚ) (nows : List ℚ) (hrate : 0 < rate)
    (hnows : ∀ now ∈ nows, pStart ≤ now)
    (hdur : 0 < totalDuration packets) :
    List.Chain' (· ≤ ·)
      ((playPacketsV2 packets rate pStart nows).heartbeats.map Prod.snd) ∧
    (∀ x ∈ (playPacketsV2 packets rate pStart nows).heartbeats, 0 ≤ x.2) ∧
    (∀ (st : SchedState) (now : ℚ),
      (pollStep packets (startInstant packets) (totalDuration packets)
        rate pStart st now).heartbeats =
      st.heartbeats ++
        (if simTimeAt (startInstant packets) rate pStart now -
            st.lastHeartbeatSimTime ≥ 5
         then [(simTimeAt (startInstant packets) rate pStart now,
                percentPlayed (startInstant packets) (totalDuration packets)
                  (simTimeAt (startInstant packets) rate pStart now))]
         else [])) := by
  obtain ⟨hchain, hbound, hpct, hstart⟩ :=
    playPacketsV2_hbInv packets rate pStart nows hrate hnows
  refine ⟨chain_percent _ _ hdur _ hchain hpct, ?_, ?_⟩
  · intro x hx
    rw [hpct x hx]
    unfold percentPlayed
    have h1 := hstart x hx
    have h2 : 0 ≤ (x.1 - startInstant packets) / totalDuration packets :=
      div_nonneg (by linarith) (le_of_lt hdur)
    exact mul_nonneg h2 (by norm_num)
  · intro st now
    exact pollStep_heartbeats packets _ _ rate pStart st now

/-- Witness for C3 at a two-packet input and a monotone two-poll clock. -/
theorem claim_C3_heartbeat_monotone_witness :
    List.Chain' (· ≤ ·)
      ((playPacketsV2 [⟨0, 0, [0x21, 0x41]⟩, ⟨1, 0, [0x21, 0x42]⟩]
          1 0 [0, 6]).heartbeats.map Prod.snd) :=
  (claim_C3_heartbeat_monotone _ 1 0 [0, 6] (by norm_num)
    (by intro x hx; fin_cases hx <;> norm_num)
    (by norm_num [totalDuration, startInstant, endInstant, instantOf])).1

/-- Counterexample to C3 as stated: the emitted percentage is not bounded
by 100.  With packets at instants 0 and 1 (total duration 1) and a first
poll observed 6 wall seconds after playback start at rate 1, the heartbeat
fires before the drain with simulated time 6 and reports 600%. -/
theorem claim_C3_percent_exceeds_100 :
    (playPacketsV2 [⟨0, 0, [0x21, 0x41]⟩, ⟨1, 0, [0x21, 0x42]⟩]
        1 0 [6]).heartbeats = [(6, 600)] ∧ ¬ ((600 : ℚ) ≤ 100) := by
  constructor
  · norm_num [playPacketsV2, playLoop, pollStep, drainPackets, startInstant,
      endInstant, totalDuration, instantOf, percentPlayed, decodeUtf8,
      decodeOne, jsTrim, isJsWhitespace, startsWithBang]
  · norm_num

/-- C5: for every input text, the text reader yields only Packets with
`timestampUsec = 0`; a line not starting with the `\s:` sentinel, a line
the `c:(\d+)\*\w+\\(.*)` pattern rejects, and a line whose extracted body
does not begin with `'!'` each contribute nothing to the output; and the
reader is the total function mapping each line independently (no error is
raised for skipped lines). -/
theorem claim_C5_nm4_reader (s : List Nat) :
    (∀ p ∈ parseNm4File s, p.timestampUsec = 0) ∧
    (∀ line : List Nat, startsWithSentinel line = false →
      parseNm4Line line = none) ∧
    (∀ line : List Nat, findCMatch line = none → parseNm4Line line = none) ∧
    (∀ line ds body : List Nat, findCMatch line = some (ds, body) →
      startsWithBang (jsTrim body) = false → parseNm4Line line = none) ∧
    parseNm4File s = (splitLines s).filterMap parseNm4Line := by
  refine ⟨?_, parseNm4Line_none_of_sentinel, parseNm4Line_none_of_nomatch,
    parseNm4Line_none_of_nobang, rfl⟩
  intro p hp
  unfold parseNm4File at hp
  rw [List.mem_filterMap] at hp
  obtain ⟨line, _, hpl⟩ := hp
  obtain ⟨_, ds, body, _, _, hshape⟩ := parseNm4Line_some line p hpl
  rw [hshape]

/-- Witness for C5: the sample line parses to a packet whose microsecond
field is 0. -/
theorem claim_C5_nm4_reader_witness :
    Packet.timestampUsec ⟨1700000000, 0, [0x21, 0x41, 0x49, 0x56, 0x44, 0x4D]⟩
      = 0 :=
  (claim_C5_nm4_reader nm4Sample).1 _ (by decide)

/-- C6 (amended): for a single-packet sequence whose payload passes the
marker filter, any completing run of the poll-driven scheduler invokes
`onSend` exactly once; and provided every poll's simulated time stays
below `startInstant + 5`, the heartbeat branch is never taken, so the
percent-complete expression (whose `totalDuration` denominator is 0) is
never evaluated.  (Without that clock proviso the branch is taken before
the sole packet is drained: see the counterexample.) -/
theorem claim_C6_single_packet (p : Packet) (rate pStart : ℚ)
    (nows : List ℚ) (hrate : 0 < rate)
    (hmarker : startsWithBang (jsTrim (decodeUtf8 p.data)) = true)
    (hc : completes [p] rate pStart nows)
    (hb : ∀ now ∈ nows,
      simTimeAt (startInstant [p]) rate pStart now - startInstant [p] < 5) :
    (playPacketsV2 [p] rate pStart nows).sends =
      [(instantOf p, jsTrim (decodeUtf8 p.data))] ∧
    (playPacketsV2 [p] rate pStart nows).heartbeats = [] := by
  constructor
  · rw [playPacketsV2_sends_of_completes _ _ _ _ hc]
    unfold deliveriesOf
    rw [List.filterMap_cons_some
      (by unfold sendOf; dsimp only; rw [if_pos hmarker])]
    rfl
  · exact playPacketsV2_no_heartbeat _ _ _ _ (by simp) hb

/-- Witness for C6: one packet at instant 10 with playback start captured
at wall time 10 and a single immediate poll — one delivery, no heartbeat. -/
theorem claim_C6_single_packet_witness :
    (playPacketsV2 [⟨10, 0, [0x21, 0x41]⟩] 1 10 [10]).sends =
      [(instantOf ⟨10, 0, [0x21, 0x41]⟩,
        jsTrim (decodeUtf8 [0x21, 0x41]))] ∧
    (playPacketsV2 [⟨10, 0, [0x21, 0x41]⟩] 1 10 [10]).heartbeats = [] :=
  claim_C6_single_packet ⟨10, 0, [0x21, 0x41]⟩ 1 10 [10]
    (by norm_num)
    (by norm_num [decodeUtf8, decodeOne, jsTrim, isJsWhitespace,
      startsWithBang])
    (by unfold completes
        norm_num [playPacketsV2, playLoop, pollStep, drainPackets,
          startInstant, endInstant, totalDuration, instantOf, percentPlayed,
          decodeUtf8, decodeOne, jsTrim, isJsWhitespace, startsWithBang])
    (by intro x hx
        fin_cases hx
        norm_num [simTimeAt, startInstant, instantOf])

/-- Counterexample to C6 as stated: the heartbeat/percentage branch can be
taken before the sole packet is drained.  With the packet at instant 10,
playback start 0, rate 1 and the first poll at wall time 20 (simulated
time 30), the run records a heartbeat — computing
`percentPlayed 10 0 30`, a division by the zero `totalDuration` (IEEE
arithmetic yields Infinity there; exact rationals yield 0) — and only then
drains and delivers the packet. -/
theorem claim_C6_heartbeat_fires_on_zero_duration :
    totalDuration [⟨10, 0, [0x21, 0x41]⟩] = 0 ∧
    (playPacketsV2 [⟨10, 0, [0x21, 0x41]⟩] 1 0 [20]).heartbeats =
      [(30, percentPlayed 10 0 30)] ∧
    (playPacketsV2 [⟨10, 0, [0x21, 0x41]⟩] 1 0 [20]).sends =
      [(10, [0x21, 0x41])] := by
  refine ⟨?_, ?_, ?_⟩ <;>
    norm_num [playPacketsV2, playLoop, pollStep, drainPackets, startInstant,
      endInstant, totalDuration, instantOf, percentPlayed, decodeUtf8,
      decodeOne, jsTrim, isJsWhitespace, startsWithBang]

/-- C7: both format readers are total — they are plain functions in this
embedding, and the binary scan's termination argument is quantitative:
each iteration consumes at least the 12 header bytes, so the packet count
is bounded by a twelfth of the buffer length; the text reader yields at
most one packet per line.  No input makes either reader fail. -/
theorem claim_C7_readers_total (buf s : List Nat) :
    12 * (parseBinFile buf).1.length ≤ buf.length ∧
    (parseNm4File s).length ≤ (splitLines s).length :=
  ⟨parseBinGo_length_aux buf.length buf le_rfl,
   List.length_filterMap_le _ _⟩

/-- C8 (amended): revision 1's `onSend` suppresses a delivery whose
`(instant, payload)` key equals the immediately preceding invocation's key
(no state change, no sink send); an invocation with a differing key —
including a non-consecutive repeat — always records its key as the new
`lastPacketKey` and is forwarded to the sink exactly when the identifier
extraction finds an MMSI; when extraction fails the delivery is dropped
with a warning instead.  (The unconditional "is forwarded to the sink" of
the original claim is refuted by the counterexample.) -/
theorem claim_C8_duplicate_suppression (extract : List Nat → Option Nat)
    (st : DispatchState) (packetTime : ℚ) (sentence : List Nat) :
    (st.lastPacketKey = some (packetTime, sentence) →
      onSendV1 extract st packetTime sentence = st) ∧
    (st.lastPacketKey ≠ some (packetTime, sentence) →
      (onSendV1 extract st packetTime sentence).lastPacketKey =
          some (packetTime, sentence) ∧
        (∀ m : Nat, extract sentence = some m →
          (onSendV1 extract st packetTime sentence).sinkSends =
            st.sinkSends ++ [(m, sentence)]) ∧
        (extract sentence = none →
          (onSendV1 extract st packetTime sentence).sinkSends =
            st.sinkSends)) := by
  constructor
  · intro h
    unfold onSendV1
    rw [if_pos h]
  · intro h
    unfold onSendV1
    rw [if_neg h]
    cases hext : extract sentence with
    | none => exact ⟨by simp [hext], fun m hm => by simp [hext] at hm,
        fun _ => by simp [hext]⟩
    | some m0 => exact ⟨by simp [hext], fun m hm => by
        simp only [hext, Option.some.injEq] at hm
        subst hm
        simp [hext], fun hcontra => by simp [hext] at hcontra⟩

/-- Witness for C8: a fresh key with successful extraction reaches the
sink; the same key again, back to back, is suppressed. -/
theorem claim_C8_duplicate_suppression_witness :
    (onSendV1 (fun _ => some 7) ⟨none, []⟩ 1 [0x21, 0x41]).sinkSends =
      [] ++ [(7, [0x21, 0x41])] ∧
    onSendV1 (fun _ => some 7)
        ⟨some (1, [0x21, 0x41]), [(7, [0x21, 0x41])]⟩ 1 [0x21, 0x41] =
      ⟨some (1, [0x21, 0x41]), [(7, [0x21, 0x41])]⟩ :=
  ⟨((claim_C8_duplicate_suppression (fun _ => some 7) ⟨none, []⟩ 1
      [0x21, 0x41]).2 (by simp)).2.1 7 rfl,
   (claim_C8_duplicate_suppression (fun _ => some 7)
      ⟨some (1, [0x21, 0x41]), [(7, [0x21, 0x41])]⟩ 1 [0x21, 0x41]).1 rfl⟩

/-- Counterexample to C8 as stated: an invocation whose key differs from
its immediate predecessor is not forwarded to the sink when the identifier
extraction yields nothing — the code returns after a warning, before
`producer.sendMessage`. -/
theorem claim_C8_no_forward_without_mmsi :
    (⟨none, []⟩ : DispatchState).lastPacketKey ≠ some (1, [0x21, 0x41]) ∧
    (onSendV1 (fun _ => none) ⟨none, []⟩ 1 [0x21, 0x41]).sinkSends = [] := by
  constructor
  · simp
  · rfl

/-- C9: every Packet the text reader yields has a payload that decodes to
an already-trimmed sentence beginning with `'!'` (given input text made of
scalar values, which Node's UTF-8 file decoding guarantees); consequently
the scheduler's marker filter never skips a text-variant Packet, and on
any completing run the number of `onSend` invocations equals the number of
parsed Packets. -/
theorem claim_C9_nm4_packets_all_delivered (s : List Nat)
    (hv : ∀ c ∈ s, validScalar c) (rate pStart : ℚ) (nows : List ℚ)
    (hc : completes (parseNm4File s) rate pStart nows) :
    (∀ p ∈ parseNm4File s,
      decodeUtf8 p.data = jsTrim (decodeUtf8 p.data) ∧
        startsWithBang (jsTrim (decodeUtf8 p.data)) = true) ∧
    (playPacketsV2 (parseNm4File s) rate pStart nows).sends.length =
      (parseNm4File s).length := by
  refine ⟨parseNm4File_marker s hv, ?_⟩
  rw [playPacketsV2_sends_of_completes _ _ _ _ hc]
  rw [deliveriesOf_all_marker _ fun p hp => (parseNm4File_marker s hv p hp).2]
  exact List.length_map _ _

/-- Witness for C9: the sample line's packet is delivered, one send for
one packet. -/
theorem claim_C9_nm4_packets_all_delivered_witness :
    (playPacketsV2 (parseNm4File nm4Sample) 1 1700000000
        [1700000000]).sends.length = (parseNm4File nm4Sample).length :=
  (claim_C9_nm4_packets_all_delivered nm4Sample
    (by intro c hc; fin_cases hc <;> exact Or.inl (by decide))
    1 1700000000 [1700000000]
    (by unfold completes
        rw [show parseNm4File nm4Sample =
          [⟨1700000000, 0, [0x21, 0x41, 0x49, 0x56, 0x44, 0x4D]⟩] by decide]
        norm_num [playPacketsV2, playLoop, pollStep, drainPackets,
          startInstant, endInstant, totalDuration, instantOf, percentPlayed,
          decodeUtf8, decodeOne, jsTrim, isJsWhitespace,
          startsWithBang])).2

end AisPlayer
